import Mathlib

/-!
Verification of the IPFIX / NetFlow-V9 packet encoder from
`src/external/google/gopacket/layers/ipfix.go`.

Shallow embedding conventions:
* machine integers (`uint16`, `uint32`) are `Nat`; every conversion
  `uintN(x)` in the Go source becomes `x % 2^N`, and the big-endian
  byte writers `be16`/`be32` extract the low bytes exactly as
  `binary.BigEndian.PutUintN` does on the converted value;
* a caller-owned byte buffer is a `List Nat`; an in-place Go write
  `copy`/`PutUintN` into `b[off:]` becomes `writeAt b off bytes`,
  which overwrites starting at `off`, truncating at the end of the
  buffer (the reachable writes below are all in bounds);
* the Go methods `Len()` on `IPFixSet` and `IPFix` mutate the stored
  `Length` field as a side effect; they are embedded in state-passing
  style, returning the computed length together with the updated value;
* `gopacket.SerializeBuffer.PrependBytes` is modeled as always
  succeeding (allocating a fresh zero region of the requested size);
  the only error paths in the Go source are the allocation failure and
  the entry encoders, which always return `nil`.
-/

/-- Big-endian 2-byte encoding, as `binary.BigEndian.PutUint16`
applied to `uint16(n)`. -/
def be16 (n : Nat) : List Nat :=
  [n / 256 % 256, n % 256]

/-- Big-endian 4-byte encoding, as `binary.BigEndian.PutUint32`
applied to `uint32(n)`. -/
def be32 (n : Nat) : List Nat :=
  [n / 16777216 % 256, n / 65536 % 256, n / 256 % 256, n % 256]

/-- Overwrite `b` starting at position `off` with the bytes `bs`,
keeping the rest of `b`; bytes of `bs` falling beyond the end of `b`
are dropped (Go's `copy` semantics; the fixed-size `PutUintN` writes
used below are always in bounds). The buffer length never changes. -/
def writeAt (b : List Nat) (off : Nat) (bs : List Nat) : List Nat :=
  b.take off ++ bs.take (b.length - off) ++ b.drop (off + bs.length)

/- ## IPFixField -/

/-- Go struct `IPFixField`. -/
structure IPFixField where
  Name : String := ""
  «Type» : Nat := 0
  Length : Nat := 0
  EnterpriseNumber : Nat := 0
  Offset : Nat := 0
deriving Repr, DecidableEq

/-- `(f.«Type» & 0x8000) == 0x8000`. -/
def IPFixField.IsEnterprise (f : IPFixField) : Bool :=
  f.«Type».land 0x8000 == 0x8000

/-- `IPFixField.Len`: 4 bytes, plus 4 if the enterprise bit is set. -/
def IPFixField.Len (f : IPFixField) : Nat :=
  if f.IsEnterprise then 4 + 4 else 4

/-- `IPFixField.encode`, writing into the buffer slice `b[base:]`:
type code at relative offset 0, declared length at 2, and the
enterprise number at 4 when the enterprise bit is set. -/
def IPFixField.encode (f : IPFixField) (b : List Nat) (base : Nat) : List Nat :=
  let b1 := writeAt b base (be16 f.«Type»)
  let b2 := writeAt b1 (base + 2) (be16 f.Length)
  if f.IsEnterprise then writeAt b2 (base + 4) (be32 f.EnterpriseNumber) else b2

/- ## IPFixTemplate and IPFixRecord -/

/-- Go struct `IPFixTemplate`. -/
structure IPFixTemplate where
  ID : Nat := 0
  FieldCount : Nat := 0
  Fields : List IPFixField := []
deriving Repr, DecidableEq

/-- `NewIPFixTemplate`: the field count is `uint16(len(fields))`. -/
def NewIPFixTemplate (id : Nat) (fields : List IPFixField) : IPFixTemplate :=
  { ID := id, FieldCount := fields.length % 65536, Fields := fields }

/-- `IPFixTemplate.Len`: `n := 4` then `n += f.Len()` over the fields. -/
def IPFixTemplate.Len (t : IPFixTemplate) : Nat :=
  t.Fields.foldl (fun n f => n + f.Len) 4

/-- The field-encoding loop of `IPFixTemplate.encode`: encode each
field at the running offset, then advance by its length. -/
def encodeFieldList (fs : List IPFixField) (b : List Nat) (off : Nat) : List Nat :=
  match fs with
  | [] => b
  | f :: rest => encodeFieldList rest (f.encode b off) (off + f.Len)

/-- `IPFixTemplate.encode`: template id at relative offset 0, field
count at 2, then the fields starting at 4. -/
def IPFixTemplate.encode (t : IPFixTemplate) (b : List Nat) (base : Nat) : List Nat :=
  let b1 := writeAt b base (be16 t.ID)
  let b2 := writeAt b1 (base + 2) (be16 t.FieldCount)
  encodeFieldList t.Fields b2 (base + 4)

/-- Go struct `IPFixRecord`: an opaque pre-encoded payload. -/
structure IPFixRecord where
  Data : List Nat := []
deriving Repr, DecidableEq

/-- `IPFixRecord.Len` is the payload length. -/
def IPFixRecord.Len (r : IPFixRecord) : Nat :=
  r.Data.length

/-- `IPFixRecord.encode` copies the payload into `b[base:]`. -/
def IPFixRecord.encode (r : IPFixRecord) (b : List Nat) (base : Nat) : List Nat :=
  writeAt b base r.Data

/- ## IPFixSetEntry -/

/-- The Go interface `IPFixSetEntry`, realized by exactly
`IPFixTemplate` and `IPFixRecord`, as a sum type. -/
inductive IPFixSetEntry where
  | template (t : IPFixTemplate)
  | record (r : IPFixRecord)
deriving Repr, DecidableEq

/-- Dynamic dispatch of `Len` over the two entry kinds. -/
def IPFixSetEntry.Len : IPFixSetEntry → Nat
  | .template t => t.Len
  | .record r => r.Len

/-- Dynamic dispatch of `encode` over the two entry kinds. -/
def IPFixSetEntry.encode (e : IPFixSetEntry) (b : List Nat) (base : Nat) : List Nat :=
  match e with
  | .template t => t.encode b base
  | .record r => r.encode b base

/- ## IPFixSet -/

/-- Go struct `IPFixSet`. -/
structure IPFixSet where
  ID : Nat := 0
  Length : Nat := 0
  SetEntries : List IPFixSetEntry := []
deriving Repr, DecidableEq

/-- `IPFixSet.Len`, in state-passing style: computes
`4 + Σ entry lengths`, stores `uint16` of it into the `Length` field,
and returns the unreduced value together with the updated set. -/
def IPFixSet.Len (s : IPFixSet) : Nat × IPFixSet :=
  let n := s.SetEntries.foldl (fun n e => n + e.Len) 4
  (n, { s with Length := n % 65536 })

/-- `IPFixSet.IsDataSet`: true iff the set id exceeds 255. -/
def IPFixSet.IsDataSet (s : IPFixSet) : Bool :=
  s.ID > 255

/-- The entry-encoding loop of `IPFixSet.encode`: encode each entry at
the running offset, then advance by `t.Len()`. -/
def encodeEntryList (es : List IPFixSetEntry) (b : List Nat) (off : Nat) : List Nat :=
  match es with
  | [] => b
  | e :: rest => encodeEntryList rest (e.encode b off) (off + e.Len)

/-- `IPFixSet.encode`: set id at relative offset 0, the *stored*
length field at 2, then the entries starting at 4. -/
def IPFixSet.encode (s : IPFixSet) (b : List Nat) (base : Nat) : List Nat :=
  let b1 := writeAt b base (be16 s.ID)
  let b2 := writeAt b1 (base + 2) (be16 s.Length)
  encodeEntryList s.SetEntries b2 (base + 4)

/- ## IPFix packet -/

/-- Header length constants from the Go source. -/
def IpfixHeaderLenVer10 : Nat := 16

def IpfixHeaderLenVer9 : Nat := 20

/-- Go struct `IPFix` (the `BaseLayer` embedding carries no data used
by the encoder and is omitted). -/
structure IPFix where
  Ver : Nat := 0
  Length : Nat := 0
  SysUpTime : Nat := 0
  Timestamp : Nat := 0
  FlowSeq : Nat := 0
  DomainID : Nat := 0
  SourceID : Nat := 0
  Sets : List IPFixSet := []
deriving Repr, DecidableEq

/-- `IPFix.Len`, in state-passing style: header length (16, or 20 for
version 9) plus the set lengths, calling each set's `Len` (which
refreshes that set's stored length); stores `uint16` of the total and
returns the unreduced total with the updated packet. -/
def IPFix.Len (i : IPFix) : Nat × IPFix :=
  let n0 := if i.Ver == 9 then IpfixHeaderLenVer9 else IpfixHeaderLenVer10
  let pairs := i.Sets.map IPFixSet.Len
  let n := (pairs.map Prod.fst).foldl (· + ·) n0
  (n, { i with Length := n % 65536, Sets := pairs.map Prod.snd })

/-- The set-encoding loop of `IPFix.SerializeTo`: encode each set at
the running offset, then advance by the set's *stored* length. -/
def encodeSetList (ss : List IPFixSet) (b : List Nat) (off : Nat) : List Nat :=
  match ss with
  | [] => b
  | s :: rest => encodeSetList rest (s.encode b off) (off + s.Length)

/-- The `setCount` loop of the version-9 branch of `SerializeTo`:
total number of set entries over all sets. -/
def ipfixSetCount (ss : List IPFixSet) : Nat :=
  ss.foldl (fun n s => n + s.SetEntries.length) 0

/-- `IPFix.SerializeTo`: compute the total length via `Len` (which
refreshes all stored lengths), reserve that many (zero) bytes, write
the version, the version-specific header fields, and then the sets in
order starting right after the header. -/
def IPFix.SerializeTo (i : IPFix) : List Nat :=
  let p := i.Len
  let i' := p.snd
  let data := List.replicate p.fst 0
  let d0 := writeAt data 0 (be16 i'.Ver)
  let d1 :=
    if i'.Ver == 10 then
      let a := writeAt d0 2 (be16 i'.Length)
      let b := writeAt a 4 (be32 i'.Timestamp)
      let c := writeAt b 8 (be32 i'.FlowSeq)
      writeAt c 12 (be32 i'.DomainID)
    else d0
  let d2 :=
    if i'.Ver == 9 then
      let a := writeAt d1 2 (be16 (ipfixSetCount i'.Sets))
      let b := writeAt a 4 (be32 i'.SysUpTime)
      let c := writeAt b 8 (be32 i'.Timestamp)
      let d := writeAt c 12 (be32 i'.FlowSeq)
      writeAt d 16 (be32 i'.SourceID)
    else d1
  let off := if i'.Ver == 9 then IpfixHeaderLenVer10 + 4 else IpfixHeaderLenVer10
  encodeSetList i'.Sets d2 off

/- ## Decode stub -/

/-- The state the gopacket `PacketBuilder` accumulates: the layers
added so far (none are ever added by `decodeIPFix`). -/
structure PacketBuilder where
  layers : List (List Nat) := []
deriving Repr, DecidableEq

/-- `decodeIPFix`: unconditionally returns the "not implemented"
error, touching neither the input bytes nor the builder. -/
def decodeIPFix (data : List Nat) (p : PacketBuilder) :
    Except String PacketBuilder :=
  Except.error "Not Implemented yet"

/- ## Wire images

The byte strings each encoder lays down, as plain list concatenations.
The lemmas below show that the in-place encoders above produce exactly
these strings. -/

/-- The bytes `IPFixField.encode` lays down. -/
def fieldBytes (f : IPFixField) : List Nat :=
  be16 f.«Type» ++ be16 f.Length ++
    (if f.IsEnterprise then be32 f.EnterpriseNumber else [])

/-- The bytes `IPFixTemplate.encode` lays down. -/
def templateBytes (t : IPFixTemplate) : List Nat :=
  be16 t.ID ++ be16 t.FieldCount ++ (t.Fields.map fieldBytes).flatten

/-- The bytes `IPFixSetEntry.encode` lays down. -/
def entryBytes : IPFixSetEntry → List Nat
  | .template t => templateBytes t
  | .record r => r.Data

/-- The bytes `IPFixSet.encode` lays down (the length field inside is
the *stored* one). -/
def setBytes (s : IPFixSet) : List Nat :=
  be16 s.ID ++ be16 s.Length ++ (s.SetEntries.map entryBytes).flatten

/- ## Generic facts about `writeAt` and the loop folds -/

theorem foldl_add_map {α : Type} (g : α → Nat) :
    ∀ (l : List α) (a : Nat),
      l.foldl (fun n x => n + g x) a = a + (l.map g).sum := by
  intro l
  induction l with
  | nil => simp
  | cons x l ih => intro a; simp [ih, Nat.add_assoc]

theorem writeAt_length (b : List Nat) (off : Nat) (bs : List Nat) :
    (writeAt b off bs).length = b.length := by
  simp [writeAt]
  omega

theorem writeAt_in_bounds {b : List Nat} {off : Nat} {bs : List Nat}
    (h : off + bs.length ≤ b.length) :
    writeAt b off bs = b.take off ++ bs ++ b.drop (off + bs.length) := by
  unfold writeAt
  rw [List.take_of_length_le (show bs.length ≤ b.length - off by omega)]

theorem writeAt_nil (b : List Nat) (off : Nat) :
    writeAt b off [] = b := by
  simp [writeAt]

theorem writeAt_full {b bs : List Nat} (h : bs.length = b.length) :
    writeAt b 0 bs = bs := by
  rw [writeAt_in_bounds (by omega)]
  simp [h]

theorem writeAt_take {b : List Nat} {off : Nat} (bs : List Nat) {k : Nat}
    (hk : k ≤ off) :
    (writeAt b off bs).take k = b.take k := by
  unfold writeAt
  rcases Nat.le_total b.length off with hbo | hbo
  · rw [List.take_of_length_le hbo, Nat.sub_eq_zero_of_le hbo, List.take_zero,
      List.drop_of_length_le (show b.length ≤ off + bs.length by omega)]
    simp
  · have hlen : (b.take off).length = off := by
      simp [Nat.min_eq_left hbo]
    rw [List.take_append_eq_append_take, List.take_append_eq_append_take, hlen,
      Nat.sub_eq_zero_of_le hk, List.take_zero, List.append_nil,
      List.take_take, Nat.min_eq_left hk]
    have h0 : k - (b.take off ++ bs.take (b.length - off)).length = 0 := by
      simp [hlen]
      omega
    rw [h0, List.take_zero, List.append_nil]

theorem writeAt_writeAt_consecutive {b : List Nat} {off : Nat}
    {xs ys : List Nat} (h : off + xs.length + ys.length ≤ b.length) :
    writeAt (writeAt b off xs) (off + xs.length) ys =
      writeAt b off (xs ++ ys) := by
  have hx : off + xs.length ≤ b.length := by omega
  have hoff : off ≤ b.length := by omega
  have htake : (b.take off).length = off := by
    simp [Nat.min_eq_left hoff]
  have hWlen : (writeAt b off xs).length = b.length := writeAt_length b off xs
  rw [writeAt_in_bounds
      (show off + xs.length + ys.length ≤ (writeAt b off xs).length
        by omega),
    writeAt_in_bounds
      (show off + (xs ++ ys).length ≤ b.length
        by simp only [List.length_append]; omega),
    writeAt_in_bounds hx]
  have h1 : (b.take off ++ xs ++ b.drop (off + xs.length)).take (off + xs.length)
      = b.take off ++ xs := by
    rw [show b.take off ++ xs ++ b.drop (off + xs.length)
        = (b.take off ++ xs) ++ b.drop (off + xs.length) from rfl]
    exact List.take_left' (by simp [htake])
  have h2 : (b.take off ++ xs ++ b.drop (off + xs.length)).drop
        (off + xs.length + ys.length) = b.drop (off + (xs ++ ys).length) := by
    rw [show b.take off ++ xs ++ b.drop (off + xs.length)
        = (b.take off ++ xs) ++ b.drop (off + xs.length) from rfl,
      List.drop_append_eq_append_drop,
      List.drop_of_length_le
        (show (b.take off ++ xs).length ≤ off + xs.length + ys.length
          by simp [htake]),
      List.nil_append]
    have hn : off + xs.length + ys.length - (b.take off ++ xs).length
        = ys.length := by
      simp [htake]
    rw [hn, List.drop_drop]
    congr 1
    simp
    omega
  rw [h1, h2]
  simp [List.append_assoc]

/-- `writeAt_writeAt_consecutive` with the second offset given as a
numeral. -/
theorem writeAt_writeAt_consecutive2 {b : List Nat} {off off2 : Nat}
    {xs ys : List Nat} (hoff2 : off2 = off + xs.length)
    (h : off + xs.length + ys.length ≤ b.length) :
    writeAt (writeAt b off xs) off2 ys = writeAt b off (xs ++ ys) := by
  subst hoff2
  exact writeAt_writeAt_consecutive h

/- ## Byte lengths of the wire images -/

theorem be16_length (n : Nat) : (be16 n).length = 2 := rfl

theorem be32_length (n : Nat) : (be32 n).length = 4 := rfl

theorem fieldBytes_length (f : IPFixField) :
    (fieldBytes f).length = f.Len := by
  unfold fieldBytes IPFixField.Len
  cases hf : f.IsEnterprise <;> simp [hf, be16, be32]

theorem IPFixTemplate.Len_eq (t : IPFixTemplate) :
    t.Len = 4 + (t.Fields.map IPFixField.Len).sum :=
  foldl_add_map IPFixField.Len t.Fields 4

theorem templateBytes_length (t : IPFixTemplate) :
    (templateBytes t).length = t.Len := by
  unfold templateBytes
  rw [IPFixTemplate.Len_eq]
  simp [be16, List.map_map]
  rw [show List.map (List.length ∘ fieldBytes) t.Fields
      = List.map IPFixField.Len t.Fields from
    List.map_congr_left (fun f _ => fieldBytes_length f)]
  omega

theorem entryBytes_length (e : IPFixSetEntry) :
    (entryBytes e).length = e.Len := by
  cases e with
  | template t => exact templateBytes_length t
  | record r => rfl

theorem flatten_fieldBytes_length (fs : List IPFixField) :
    ((fs.map fieldBytes).flatten).length = (fs.map IPFixField.Len).sum := by
  rw [List.length_flatten, List.map_map,
    show List.map (List.length ∘ fieldBytes) fs = List.map IPFixField.Len fs
      from List.map_congr_left (fun f _ => fieldBytes_length f)]

theorem flatten_entryBytes_length (es : List IPFixSetEntry) :
    ((es.map entryBytes).flatten).length = (es.map IPFixSetEntry.Len).sum := by
  rw [List.length_flatten, List.map_map,
    show List.map (List.length ∘ entryBytes) es
        = List.map IPFixSetEntry.Len es
      from List.map_congr_left (fun e _ => entryBytes_length e)]

theorem setLen_fst (s : IPFixSet) :
    (s.Len).fst = 4 + (s.SetEntries.map IPFixSetEntry.Len).sum :=
  foldl_add_map IPFixSetEntry.Len s.SetEntries 4

theorem setBytes_length (s : IPFixSet) :
    (setBytes s).length = (s.Len).fst := by
  unfold setBytes
  rw [setLen_fst]
  simp [be16, List.map_map]
  rw [show List.map (List.length ∘ entryBytes) s.SetEntries
      = List.map IPFixSetEntry.Len s.SetEntries from
    List.map_congr_left (fun e _ => entryBytes_length e)]
  omega

theorem flatten_setBytes_length (ss : List IPFixSet) :
    ((ss.map setBytes).flatten).length
      = (ss.map (fun s => (s.Len).fst)).sum := by
  rw [List.length_flatten, List.map_map,
    show List.map (List.length ∘ setBytes) ss
        = List.map (fun s => (s.Len).fst) ss
      from List.map_congr_left (fun x _ => setBytes_length x)]

theorem foldl_add (l : List Nat) (a : Nat) :
    l.foldl (· + ·) a = a + l.sum := by
  have := foldl_add_map (fun x : Nat => x) l a
  simpa using this

theorem packetLen_fst (p : IPFix) :
    (p.Len).fst =
      (if p.Ver == 9 then IpfixHeaderLenVer9 else IpfixHeaderLenVer10) +
        (p.Sets.map (fun s => (s.Len).fst)).sum := by
  unfold IPFix.Len
  simp [foldl_add, List.map_map]
  rfl

/- ## Stored-state components after `Len` -/

theorem IPFixSet.Len_snd_SetEntries (s : IPFixSet) :
    (s.Len).snd.SetEntries = s.SetEntries := rfl

theorem IPFixSet.Len_snd_ID (s : IPFixSet) : (s.Len).snd.ID = s.ID := rfl

theorem setLen_snd_Length (s : IPFixSet) :
    (s.Len).snd.Length = (s.Len).fst % 65536 := rfl

theorem IPFix.Len_snd_Ver (p : IPFix) : (p.Len).snd.Ver = p.Ver := rfl

theorem packetLen_snd_Length (p : IPFix) :
    (p.Len).snd.Length = (p.Len).fst % 65536 := rfl

theorem IPFix.Len_snd_Sets (p : IPFix) :
    (p.Len).snd.Sets = p.Sets.map (fun s => (s.Len).snd) := by
  show List.map Prod.snd (List.map IPFixSet.Len p.Sets)
      = p.Sets.map (fun s => (s.Len).snd)
  rw [List.map_map]
  rfl

/- ## The in-place encoders produce their wire images -/

theorem fieldEncode_eq {f : IPFixField} {b : List Nat} {base : Nat}
    (h : base + f.Len ≤ b.length) :
    f.encode b base = writeAt b base (fieldBytes f) := by
  have hLen : f.Len = if f.IsEnterprise then 8 else 4 := by
    unfold IPFixField.Len; cases f.IsEnterprise <;> simp
  unfold IPFixField.encode fieldBytes
  cases hf : f.IsEnterprise with
  | false =>
    rw [hLen, hf] at h
    simp only [Bool.false_eq_true, if_false] at h
    simp only [hf, Bool.false_eq_true, if_false, List.append_nil]
    exact writeAt_writeAt_consecutive2 rfl (by simp [be16]; omega)
  | true =>
    rw [hLen, hf] at h
    simp only [if_true] at h
    simp only [hf, if_true]
    have e1 : writeAt (writeAt b base (be16 f.«Type»)) (base + 2)
          (be16 f.Length)
        = writeAt b base (be16 f.«Type» ++ be16 f.Length) :=
      writeAt_writeAt_consecutive2 rfl (by simp [be16]; omega)
    rw [e1]
    exact writeAt_writeAt_consecutive2 rfl (by simp [be16, be32]; omega)

theorem encodeFieldList_eq :
    ∀ (fs : List IPFixField) (b : List Nat) (off : Nat),
      off + ((fs.map fieldBytes).flatten).length ≤ b.length →
      encodeFieldList fs b off = writeAt b off (fs.map fieldBytes).flatten := by
  intro fs
  induction fs with
  | nil =>
    intro b off h
    simp [encodeFieldList, writeAt_nil]
  | cons f rest ih =>
    intro b off h
    have hfb : (fieldBytes f).length = f.Len := fieldBytes_length f
    have hflat : ((f :: rest).map fieldBytes).flatten
        = fieldBytes f ++ (rest.map fieldBytes).flatten := by simp
    rw [hflat] at h
    simp only [List.length_append] at h
    simp only [encodeFieldList]
    rw [fieldEncode_eq (by omega),
      ih _ _ (by rw [writeAt_length]; omega),
      writeAt_writeAt_consecutive2 (by rw [hfb]) (by omega), hflat]

theorem templateEncode_eq {t : IPFixTemplate} {b : List Nat}
    {base : Nat} (h : base + t.Len ≤ b.length) :
    t.encode b base = writeAt b base (templateBytes t) := by
  have hsum : base + 4 + (t.Fields.map IPFixField.Len).sum ≤ b.length := by
    rw [IPFixTemplate.Len_eq] at h; omega
  show encodeFieldList t.Fields
      (writeAt (writeAt b base (be16 t.ID)) (base + 2) (be16 t.FieldCount))
      (base + 4) = writeAt b base (templateBytes t)
  have e1 : writeAt (writeAt b base (be16 t.ID)) (base + 2)
        (be16 t.FieldCount)
      = writeAt b base (be16 t.ID ++ be16 t.FieldCount) :=
    writeAt_writeAt_consecutive2 rfl (by simp [be16]; omega)
  rw [e1, encodeFieldList_eq _ _ _
    (by rw [writeAt_length, flatten_fieldBytes_length]; omega)]
  unfold templateBytes
  exact writeAt_writeAt_consecutive2 rfl
    (by rw [flatten_fieldBytes_length]; simp [be16]; omega)

theorem recordEncode_eq (r : IPFixRecord) (b : List Nat) (base : Nat) :
    r.encode b base = writeAt b base r.Data := rfl

theorem entryEncode_eq {e : IPFixSetEntry} {b : List Nat}
    {base : Nat} (h : base + e.Len ≤ b.length) :
    e.encode b base = writeAt b base (entryBytes e) := by
  cases e with
  | template t => exact templateEncode_eq h
  | record r => rfl

theorem encodeEntryList_eq :
    ∀ (es : List IPFixSetEntry) (b : List Nat) (off : Nat),
      off + ((es.map entryBytes).flatten).length ≤ b.length →
      encodeEntryList es b off = writeAt b off (es.map entryBytes).flatten := by
  intro es
  induction es with
  | nil =>
    intro b off h
    simp [encodeEntryList, writeAt_nil]
  | cons e rest ih =>
    intro b off h
    have heb : (entryBytes e).length = e.Len := entryBytes_length e
    have hflat : ((e :: rest).map entryBytes).flatten
        = entryBytes e ++ (rest.map entryBytes).flatten := by simp
    rw [hflat] at h
    simp only [List.length_append] at h
    simp only [encodeEntryList]
    rw [entryEncode_eq (by omega),
      ih _ _ (by rw [writeAt_length]; omega),
      writeAt_writeAt_consecutive2 (by rw [heb]) (by omega), hflat]

theorem setEncode_eq {s : IPFixSet} {b : List Nat} {base : Nat}
    (h : base + (s.Len).fst ≤ b.length) :
    s.encode b base = writeAt b base (setBytes s) := by
  have hsum : base + 4 + (s.SetEntries.map IPFixSetEntry.Len).sum
      ≤ b.length := by
    rw [setLen_fst] at h; omega
  show encodeEntryList s.SetEntries
      (writeAt (writeAt b base (be16 s.ID)) (base + 2) (be16 s.Length))
      (base + 4) = writeAt b base (setBytes s)
  have e1 : writeAt (writeAt b base (be16 s.ID)) (base + 2) (be16 s.Length)
      = writeAt b base (be16 s.ID ++ be16 s.Length) :=
    writeAt_writeAt_consecutive2 rfl (by simp [be16]; omega)
  rw [e1, encodeEntryList_eq _ _ _
    (by rw [writeAt_length, flatten_entryBytes_length]; omega)]
  unfold setBytes
  exact writeAt_writeAt_consecutive2 rfl
    (by rw [flatten_entryBytes_length]; simp [be16]; omega)

theorem encodeSetList_eq :
    ∀ (ss : List IPFixSet) (b : List Nat) (off : Nat),
      (∀ s ∈ ss, s.Length = (s.Len).fst) →
      off + ((ss.map setBytes).flatten).length ≤ b.length →
      encodeSetList ss b off = writeAt b off (ss.map setBytes).flatten := by
  intro ss
  induction ss with
  | nil =>
    intro b off _ h
    simp [encodeSetList, writeAt_nil]
  | cons s rest ih =>
    intro b off hs h
    have hsb : (setBytes s).length = (s.Len).fst := setBytes_length s
    have hflat : ((s :: rest).map setBytes).flatten
        = setBytes s ++ (rest.map setBytes).flatten := by simp
    rw [hflat] at h
    simp only [List.length_append] at h
    simp only [encodeSetList]
    have hsl : s.Length = (s.Len).fst := hs s (by simp)
    rw [setEncode_eq (by omega),
      ih _ _ (fun x hx => hs x (by simp [hx])) (by rw [writeAt_length]; omega),
      writeAt_writeAt_consecutive2 (by rw [hsb, hsl]) (by omega), hflat]

/- ## The encoders never change the buffer length -/

theorem fieldEncode_length (f : IPFixField) (b : List Nat)
    (base : Nat) : (f.encode b base).length = b.length := by
  unfold IPFixField.encode
  cases hf : f.IsEnterprise <;> simp [hf, writeAt_length]

theorem encodeFieldList_length :
    ∀ (fs : List IPFixField) (b : List Nat) (off : Nat),
      (encodeFieldList fs b off).length = b.length := by
  intro fs
  induction fs with
  | nil => intro b off; rfl
  | cons f rest ih =>
    intro b off
    simp only [encodeFieldList]
    rw [ih, fieldEncode_length]

theorem templateEncode_length (t : IPFixTemplate) (b : List Nat)
    (base : Nat) : (t.encode b base).length = b.length := by
  show (encodeFieldList t.Fields
    (writeAt (writeAt b base (be16 t.ID)) (base + 2) (be16 t.FieldCount))
    (base + 4)).length = b.length
  rw [encodeFieldList_length, writeAt_length, writeAt_length]

theorem entryEncode_length (e : IPFixSetEntry) (b : List Nat)
    (base : Nat) : (e.encode b base).length = b.length := by
  cases e with
  | template t => exact templateEncode_length t b base
  | record r => exact writeAt_length b base r.Data

theorem encodeEntryList_length :
    ∀ (es : List IPFixSetEntry) (b : List Nat) (off : Nat),
      (encodeEntryList es b off).length = b.length := by
  intro es
  induction es with
  | nil => intro b off; rfl
  | cons e rest ih =>
    intro b off
    simp only [encodeEntryList]
    rw [ih, entryEncode_length]

theorem setEncode_length (s : IPFixSet) (b : List Nat)
    (base : Nat) : (s.encode b base).length = b.length := by
  show (encodeEntryList s.SetEntries
    (writeAt (writeAt b base (be16 s.ID)) (base + 2) (be16 s.Length))
    (base + 4)).length = b.length
  rw [encodeEntryList_length, writeAt_length, writeAt_length]

theorem encodeSetList_length :
    ∀ (ss : List IPFixSet) (b : List Nat) (off : Nat),
      (encodeSetList ss b off).length = b.length := by
  intro ss
  induction ss with
  | nil => intro b off; rfl
  | cons s rest ih =>
    intro b off
    simp only [encodeSetList]
    rw [ih, setEncode_length]

/- ## The encoders leave the buffer before their offset untouched -/

theorem fieldEncode_take (f : IPFixField) {b : List Nat}
    {base k : Nat} (hk : k ≤ base) :
    (f.encode b base).take k = b.take k := by
  unfold IPFixField.encode
  cases hf : f.IsEnterprise <;>
    simp only [hf, Bool.false_eq_true, if_false, if_true] <;>
    rw [writeAt_take _ (by omega)] <;>
    rw [writeAt_take _ (by omega)]
  rw [writeAt_take _ (by omega)]

theorem encodeFieldList_take :
    ∀ (fs : List IPFixField) (b : List Nat) (off k : Nat), k ≤ off →
      (encodeFieldList fs b off).take k = b.take k := by
  intro fs
  induction fs with
  | nil => intro b off k _; rfl
  | cons f rest ih =>
    intro b off k hk
    simp only [encodeFieldList]
    rw [ih _ _ _ (by omega), fieldEncode_take f hk]

theorem templateEncode_take (t : IPFixTemplate) {b : List Nat}
    {base k : Nat} (hk : k ≤ base) :
    (t.encode b base).take k = b.take k := by
  show (encodeFieldList t.Fields
    (writeAt (writeAt b base (be16 t.ID)) (base + 2) (be16 t.FieldCount))
    (base + 4)).take k = b.take k
  rw [encodeFieldList_take _ _ _ _ (by omega),
    writeAt_take _ (by omega), writeAt_take _ hk]

theorem entryEncode_take (e : IPFixSetEntry) {b : List Nat}
    {base k : Nat} (hk : k ≤ base) :
    (e.encode b base).take k = b.take k := by
  cases e with
  | template t => exact templateEncode_take t hk
  | record r => exact writeAt_take r.Data hk

theorem encodeEntryList_take :
    ∀ (es : List IPFixSetEntry) (b : List Nat) (off k : Nat), k ≤ off →
      (encodeEntryList es b off).take k = b.take k := by
  intro es
  induction es with
  | nil => intro b off k _; rfl
  | cons e rest ih =>
    intro b off k hk
    simp only [encodeEntryList]
    rw [ih _ _ _ (by omega), entryEncode_take e hk]

theorem setEncode_take (s : IPFixSet) {b : List Nat}
    {base k : Nat} (hk : k ≤ base) :
    (s.encode b base).take k = b.take k := by
  show (encodeEntryList s.SetEntries
    (writeAt (writeAt b base (be16 s.ID)) (base + 2) (be16 s.Length))
    (base + 4)).take k = b.take k
  rw [encodeEntryList_take _ _ _ _ (by omega),
    writeAt_take _ (by omega), writeAt_take _ hk]

theorem encodeSetList_take :
    ∀ (ss : List IPFixSet) (b : List Nat) (off k : Nat), k ≤ off →
      (encodeSetList ss b off).take k = b.take k := by
  intro ss
  induction ss with
  | nil => intro b off k _; rfl
  | cons s rest ih =>
    intro b off k hk
    simp only [encodeSetList]
    rw [ih _ _ _ (by omega), setEncode_take s hk]

theorem IPFix.SerializeTo_length (p : IPFix) :
    (p.SerializeTo).length = (p.Len).fst := by
  unfold IPFix.SerializeTo
  simp only [encodeSetList_length, apply_ite List.length, writeAt_length,
    List.length_replicate, ite_self]

theorem IPFix.Len_snd_Timestamp (p : IPFix) :
    (p.Len).snd.Timestamp = p.Timestamp := rfl

theorem IPFix.Len_snd_FlowSeq (p : IPFix) :
    (p.Len).snd.FlowSeq = p.FlowSeq := rfl

theorem IPFix.Len_snd_DomainID (p : IPFix) :
    (p.Len).snd.DomainID = p.DomainID := rfl

theorem IPFix.Len_snd_SysUpTime (p : IPFix) :
    (p.Len).snd.SysUpTime = p.SysUpTime := rfl

theorem IPFix.Len_snd_SourceID (p : IPFix) :
    (p.Len).snd.SourceID = p.SourceID := rfl

/-- A refreshed set recomputes the same length. -/
theorem setLenFstOfRefresh (s : IPFixSet) :
    ((s.Len).snd.Len).fst = (s.Len).fst := by
  rw [setLen_fst, setLen_fst, IPFixSet.Len_snd_SetEntries]

theorem ipfixSetCount_eq (ss : List IPFixSet) :
    ipfixSetCount ss = (ss.map (fun s => s.SetEntries.length)).sum := by
  simpa using foldl_add_map (fun s : IPFixSet => s.SetEntries.length) ss 0

/-- The `Len` refresh leaves the total entry count unchanged. -/
theorem ipfixSetCount_refresh (ss : List IPFixSet) :
    ipfixSetCount (ss.map (fun s => (s.Len).snd)) = ipfixSetCount ss := by
  rw [ipfixSetCount_eq, ipfixSetCount_eq, List.map_map]
  rfl

/-- Full wire layout of a version-10 packet whose (refreshed) set
lengths all fit in 16 bits: the 16-byte header followed by the sets'
wire images in order. -/
theorem IPFix.serializeTo_v10 (p : IPFix) (hv : p.Ver = 10)
    (hb : ∀ s ∈ p.Sets, (s.Len).fst < 65536) :
    p.SerializeTo
      = be16 10 ++ be16 ((p.Len).snd.Length) ++ be32 p.Timestamp
        ++ be32 p.FlowSeq ++ be32 p.DomainID
        ++ (p.Sets.map (fun s => setBytes ((s.Len).snd))).flatten := by
  have hn : (p.Len).fst = 16 + (p.Sets.map (fun s => (s.Len).fst)).sum := by
    rw [packetLen_fst, hv]; rfl
  have hflat :
      ((p.Sets.map (fun s => (s.Len).snd)).map setBytes).flatten.length
        = (p.Sets.map (fun s => (s.Len).fst)).sum := by
    rw [flatten_setBytes_length, List.map_map]
    exact congrArg List.sum
      (List.map_congr_left fun x _ => setLenFstOfRefresh x)
  have hs : ∀ x ∈ p.Sets.map (fun s => (s.Len).snd),
      x.Length = (x.Len).fst := by
    intro x hmem
    obtain ⟨y, hy, rfl⟩ := List.mem_map.mp hmem
    rw [setLen_snd_Length, setLenFstOfRefresh]
    exact Nat.mod_eq_of_lt (hb y hy)
  unfold IPFix.SerializeTo
  simp only [IPFix.Len_snd_Ver, hv, IPFix.Len_snd_Timestamp,
    IPFix.Len_snd_FlowSeq, IPFix.Len_snd_DomainID, IPFix.Len_snd_Sets]
  norm_num
  rw [show IpfixHeaderLenVer10 = 16 from rfl]
  rw [writeAt_writeAt_consecutive2
    (show (2 : Nat) = 0 + (be16 (10 : Nat)).length by simp [be16])
    (by simp [be16, List.length_replicate]; omega)]
  rw [writeAt_writeAt_consecutive2
    (show (4 : Nat) = 0 + (be16 (10:Nat) ++ be16 ((p.Len).snd.Length)).length
      by simp [be16])
    (by simp [be16, be32, List.length_replicate]; omega)]
  rw [writeAt_writeAt_consecutive2
    (show (8 : Nat) = 0 + (be16 (10:Nat) ++ be16 ((p.Len).snd.Length)
        ++ be32 p.Timestamp).length by simp [be16, be32])
    (by simp [be16, be32, List.length_replicate]; omega)]
  rw [writeAt_writeAt_consecutive2
    (show (12 : Nat) = 0 + (be16 (10:Nat) ++ be16 ((p.Len).snd.Length)
        ++ be32 p.Timestamp ++ be32 p.FlowSeq).length by simp [be16, be32])
    (by simp [be16, be32, List.length_replicate]; omega)]
  rw [encodeSetList_eq _ _ _ hs
    (by rw [writeAt_length, List.length_replicate, hflat]; omega)]
  rw [writeAt_writeAt_consecutive2
    (show (16 : Nat) = 0 + (be16 (10:Nat) ++ be16 ((p.Len).snd.Length)
        ++ be32 p.Timestamp ++ be32 p.FlowSeq ++ be32 p.DomainID).length
      by simp [be16, be32])
    (by rw [hflat]; simp [be16, be32, List.length_replicate]; omega)]
  rw [writeAt_full
    (by rw [List.length_append, hflat]; simp [be16, be32, List.length_replicate]; omega)]
  simp [List.map_map]
  rfl

/-- The first four output bytes of a version-9 packet: the version,
then the total entry count over all sets. -/
theorem IPFix.serializeTo_v9_take4 (p : IPFix) (hv : p.Ver = 9) :
    (p.SerializeTo).take 4 = be16 9 ++ be16 (ipfixSetCount p.Sets) := by
  have hn : (p.Len).fst = 20 + (p.Sets.map (fun s => (s.Len).fst)).sum := by
    rw [packetLen_fst, hv]; rfl
  unfold IPFix.SerializeTo
  simp only [IPFix.Len_snd_Ver, hv, IPFix.Len_snd_SysUpTime,
    IPFix.Len_snd_Timestamp, IPFix.Len_snd_FlowSeq, IPFix.Len_snd_SourceID,
    IPFix.Len_snd_Sets]
  norm_num
  rw [ipfixSetCount_refresh]
  rw [show IpfixHeaderLenVer10 + 4 = 20 from rfl]
  rw [encodeSetList_take _ _ _ _ (by omega)]
  rw [writeAt_take _ (by omega)]
  rw [writeAt_take _ (by omega)]
  rw [writeAt_take _ (by omega)]
  rw [writeAt_take _ (by omega)]
  rw [writeAt_writeAt_consecutive2
    (show (2 : Nat) = 0 + (be16 (9 : Nat)).length by simp [be16])
    (by simp [be16, List.length_replicate]; omega)]
  rw [writeAt_in_bounds (by simp [be16, List.length_replicate]; omega)]
  rw [List.take_zero, List.nil_append]
  exact List.take_left' (by simp [be16])

/-- Bytes `[2:4]` of a version-9 packet's output hold the big-endian
total entry count over all sets. -/
theorem IPFix.serializeTo_v9_count_bytes (p : IPFix) (hv : p.Ver = 9) :
    ((p.SerializeTo).drop 2).take 2 = be16 (ipfixSetCount p.Sets) := by
  have h4 := IPFix.serializeTo_v9_take4 p hv
  have hdt : ((p.SerializeTo).take 4).drop 2
      = ((p.SerializeTo).drop 2).take 2 := by
    rw [List.drop_take]
  rw [← hdt, h4]
  exact List.drop_left' (by simp [be16])

/-- The source's mask test `(Type & 0x8000) == 0x8000` is exactly
"bit 15 of the type code is set". -/
theorem IPFixField.isEnterprise_eq_testBit (f : IPFixField) :
    f.IsEnterprise = f.«Type».testBit 15 := by
  unfold IPFixField.IsEnterprise
  cases hb : f.«Type».testBit 15 with
  | false =>
    simp only [beq_eq_false_iff_ne, ne_eq, beq_iff_eq]
    show ¬ (f.«Type».land 32768 = 32768)
    intro hcontra
    have := congrArg (fun x => x.testBit 15) hcontra
    simp only [show (32768 : Nat) = 2 ^ 15 by norm_num] at this
    rw [show Nat.land f.«Type» (2 ^ 15) = f.«Type» &&& 2 ^ 15 from rfl,
      Nat.testBit_land, Nat.testBit_two_pow] at this
    simp [hb] at this
  | true =>
    simp only [beq_iff_eq]
    show f.«Type».land 32768 = 32768
    apply Nat.eq_of_testBit_eq
    intro i
    rw [show Nat.land f.«Type» 32768 = f.«Type» &&& 32768 from rfl,
      show (32768 : Nat) = 2 ^ 15 by norm_num, Nat.testBit_land,
      Nat.testBit_two_pow]
    rcases eq_or_ne 15 i with h15 | h15
    · subst h15; simp [hb]
    · simp [h15]

/-- Refreshing an already refreshed set changes nothing. -/
theorem setLen_idem (s : IPFixSet) : (s.Len).snd.Len = s.Len := by
  simp [IPFixSet.Len]

theorem packetLen_idem (p : IPFix) : (p.Len).snd.Len = p.Len := by
  have hcomp : List.map (Prod.fst ∘ IPFixSet.Len ∘ Prod.snd ∘ IPFixSet.Len) p.Sets
      = List.map (Prod.fst ∘ IPFixSet.Len) p.Sets :=
    List.map_congr_left fun x _ => congrArg Prod.fst (setLen_idem x)
  simp [IPFix.Len, List.map_map, hcomp]
  exact fun a _ => congrArg Prod.snd (setLen_idem a)

/- ## Concrete values from the specification's scenarios -/

/-- Scenario A of the spec: a V10 packet with no sets. -/
def scenarioA : IPFix :=
  { Ver := 10, Timestamp := 1000, FlowSeq := 1, DomainID := 100 }

/-- Scenario D of the spec: a V9 packet with 3 entries in 2 sets. -/
def scenarioD : IPFix :=
  { Ver := 9,
    Sets := [{ ID := 0, SetEntries := [.record { Data := [1] },
                                       .record { Data := [2] }] },
             { ID := 1, SetEntries := [.record { Data := [3] }] }] }

/-- Scenario C of the spec: an enterprise field. -/
def sampleField : IPFixField :=
  { «Type» := 0x8005, Length := 4, EnterpriseNumber := 12345 }

/-- A field sharing `sampleField`'s type code but nothing else. -/
def sampleFieldAlt : IPFixField :=
  { Name := "other", «Type» := 0x8005, Length := 99,
    EnterpriseNumber := 7, Offset := 3 }

/-- A non-enterprise field. -/
def plainField : IPFixField := { «Type» := 5, Length := 2 }

/-- Scenario B's data set: one 4-byte record, id 256. -/
def sampleSet : IPFixSet :=
  { ID := 256, SetEntries := [.record { Data := [1, 2, 3, 4] }] }

/-- A set whose content is exactly 65536 bytes, overflowing the
16-bit stored length. -/
def bigSet : IPFixSet :=
  { ID := 256, SetEntries := [.record { Data := List.replicate 65532 0 }] }

/-- 65536 fields, overflowing the 16-bit field count. -/
def bigFieldList : List IPFixField := List.replicate 65536 {}

/- ## Claims -/

/-- C1: for a version-10 packet (with 16-bit-representable set
lengths), `SerializeTo` writes the 16-byte header — version at
`[0:2]`, length at `[2:4]`, timestamp at `[4:8]`, flow sequence at
`[8:12]`, domain id at `[12:16]`, all big-endian — followed
immediately by the sets' wire images in order; the spec's Scenario A
instance is `claim_C1_witness`. -/
theorem claim_C1 (p : IPFix) (hv : p.Ver = 10)
    (hb : ∀ s ∈ p.Sets, (s.Len).fst < 65536) :
    p.SerializeTo
      = be16 10 ++ be16 ((p.Len).snd.Length) ++ be32 p.Timestamp
        ++ be32 p.FlowSeq ++ be32 p.DomainID
        ++ (p.Sets.map (fun s => setBytes ((s.Len).snd))).flatten :=
  IPFix.serializeTo_v10 p hv hb

/-- C1 witness: Scenario A evaluates to the 16 bytes
`00 0A 00 10 00 00 03 E8 00 00 00 01 00 00 00 64`. -/
theorem claim_C1_witness :
    IPFix.SerializeTo scenarioA
      = [0x00, 0x0A, 0x00, 0x10, 0x00, 0x00, 0x03, 0xE8,
         0x00, 0x00, 0x00, 0x01, 0x00, 0x00, 0x00, 0x64] := by
  rw [claim_C1 scenarioA rfl (by intro s hs; simp [scenarioA] at hs)]
  rfl

/-- C2: for every version-9 packet, bytes `[2:4]` of the output hold
the big-endian total number of set entries summed over all sets (not
the number of sets). -/
theorem claim_C2 (p : IPFix) (hv : p.Ver = 9) :
    ((p.SerializeTo).drop 2).take 2
      = be16 ((p.Sets.map (fun s => s.SetEntries.length)).sum) := by
  rw [IPFix.serializeTo_v9_count_bytes p hv, ipfixSetCount_eq]

/-- C2 witness: Scenario D (3 entries grouped 2+1) yields `00 03` at
bytes `[2:4]`. -/
theorem claim_C2_witness :
    ((IPFix.SerializeTo scenarioD).drop 2).take 2 = [0x00, 0x03] := by
  rw [claim_C2 scenarioD rfl]
  rfl

/-- C3: for every packet of version 9 or 10, `SerializeTo` writes
exactly `Len` bytes, where `Len` is the header length (20 for V9, 16
for V10) plus the sum of the sets' byte lengths. -/
theorem claim_C3 (p : IPFix) (hv : p.Ver = 9 ∨ p.Ver = 10) :
    (p.SerializeTo).length = (p.Len).fst
    ∧ (p.Len).fst
        = (if p.Ver = 9 then IpfixHeaderLenVer9 else IpfixHeaderLenVer10)
          + (p.Sets.map (fun s => (s.Len).fst)).sum := by
  refine ⟨IPFix.SerializeTo_length p, ?_⟩
  rw [packetLen_fst]
  rcases hv with h | h <;> simp [h]

/-- C3 witness: Scenario A has total length 16 = header only. -/
theorem claim_C3_witness :
    (IPFix.SerializeTo scenarioA).length = (scenarioA.Len).fst
    ∧ (scenarioA.Len).fst
        = (if scenarioA.Ver = 9 then IpfixHeaderLenVer9
            else IpfixHeaderLenVer10)
          + (scenarioA.Sets.map (fun s => (s.Len).fst)).sum :=
  claim_C3 scenarioA (Or.inr rfl)

/-- C4 counterexample: for the set `bigSet` (one 65532-byte record),
the stored length after `Len` is `0`, not `4 + 65532`: the claim that
the stored length always equals `4 + Σ byteLength(ei)` fails. -/
theorem claim_C4_counterexample :
    ¬ ((bigSet.Len).snd.Length
        = 4 + (bigSet.SetEntries.map IPFixSetEntry.Len).sum) := by
  intro h
  have h1 : (bigSet.SetEntries.map IPFixSetEntry.Len).sum = 65532 := by
    rw [show bigSet.SetEntries
        = [IPFixSetEntry.record { Data := List.replicate 65532 0 }]
      from rfl]
    simp only [List.map_cons, List.map_nil, List.sum_cons, List.sum_nil,
      IPFixSetEntry.Len, IPFixRecord.Len, List.length_replicate]
    omega
  rw [setLen_snd_Length, setLen_fst, h1] at h
  omega

/-- C4 (amended): after calling `Len` on a set, the stored length
equals `(4 + Σ entry lengths) % 2^16` (hence equals `4 + Σ` whenever
that sum fits in 16 bits), and a subsequent `encode` writes exactly
`4 + Σ` bytes: the 4-byte set header followed by each entry's
encoding in order. -/
theorem claim_C4 (s : IPFixSet) (b : List Nat)
    (hb : b.length = (s.Len).fst) :
    (s.Len).fst = 4 + (s.SetEntries.map IPFixSetEntry.Len).sum
    ∧ (s.Len).snd.Length
        = (4 + (s.SetEntries.map IPFixSetEntry.Len).sum) % 65536
    ∧ ((s.Len).snd).encode b 0
        = be16 s.ID ++ be16 ((s.Len).snd.Length)
          ++ (s.SetEntries.map entryBytes).flatten
    ∧ (((s.Len).snd).encode b 0).length = (s.Len).fst := by
  refine ⟨setLen_fst s, ?_, ?_, ?_⟩
  · rw [setLen_snd_Length, setLen_fst]
  · rw [setEncode_eq (by rw [setLenFstOfRefresh]; omega),
      writeAt_full (by rw [setBytes_length, setLenFstOfRefresh, hb])]
    unfold setBytes
    rw [IPFixSet.Len_snd_ID, IPFixSet.Len_snd_SetEntries]
  · rw [setEncode_length, hb]

/-- C4 witness: Scenario B's set (one 4-byte record) has stored
length 8 and encodes into an 8-byte buffer as
`01 00 00 08 01 02 03 04`. -/
theorem claim_C4_witness :
    (sampleSet.Len).fst
        = 4 + (sampleSet.SetEntries.map IPFixSetEntry.Len).sum
    ∧ (sampleSet.Len).snd.Length
        = (4 + (sampleSet.SetEntries.map IPFixSetEntry.Len).sum) % 65536
    ∧ ((sampleSet.Len).snd).encode (List.replicate 8 0) 0
        = be16 sampleSet.ID ++ be16 ((sampleSet.Len).snd.Length)
          ++ (sampleSet.SetEntries.map entryBytes).flatten
    ∧ (((sampleSet.Len).snd).encode (List.replicate 8 0) 0).length
        = (sampleSet.Len).fst :=
  claim_C4 sampleSet (List.replicate 8 0) (by decide)

/-- C5: a field's byte length is 4 when bit 15 of the type code is
clear and 8 when it is set, and it depends on nothing but the type
code. -/
theorem claim_C5 (f : IPFixField) :
    f.Len = (if f.«Type».testBit 15 then 8 else 4)
    ∧ ∀ g : IPFixField, g.«Type» = f.«Type» → g.Len = f.Len := by
  constructor
  · unfold IPFixField.Len
    rw [IPFixField.isEnterprise_eq_testBit]
  · intro g hg
    unfold IPFixField.Len IPFixField.IsEnterprise
    rw [hg]

/-- C5 witness: `sampleField` (enterprise bit set) has length 8, and
`sampleFieldAlt`, which shares only its type code, has the same
length. -/
theorem claim_C5_witness :
    sampleField.Len = 8 ∧ sampleFieldAlt.Len = sampleField.Len :=
  ⟨((claim_C5 sampleField).1).trans (by decide),
   (claim_C5 sampleField).2 sampleFieldAlt rfl⟩

/-- C6: `encode` on a field writes the type code, the declared
length, and — only when bit 15 of the type code is set — the
enterprise number, all big-endian. -/
theorem claim_C6 (f : IPFixField) (b : List Nat) (hb : b.length = f.Len) :
    f.encode b 0
      = be16 f.«Type» ++ be16 f.Length
        ++ (if f.«Type».testBit 15 then be32 f.EnterpriseNumber else []) := by
  rw [fieldEncode_eq (by omega),
    writeAt_full (by rw [fieldBytes_length, hb])]
  unfold fieldBytes
  rw [IPFixField.isEnterprise_eq_testBit]

/-- C6 witness: Scenario C's field encodes to exactly
`80 05 00 04 00 00 30 39`. -/
theorem claim_C6_witness :
    IPFixField.encode sampleField (List.replicate 8 0) 0
      = [0x80, 0x05, 0x00, 0x04, 0x00, 0x00, 0x30, 0x39] := by
  rw [claim_C6 sampleField (List.replicate 8 0) (by decide)]
  rfl

/-- C7 counterexample: constructing a template from 65536 fields
stores field count 0, not 65536: the claim that the stored count
always equals the list length fails. -/
theorem claim_C7_counterexample :
    ¬ ((NewIPFixTemplate 1 bigFieldList).FieldCount
        = bigFieldList.length) := by
  intro h
  have h1 : ∀ (id : Nat) (fs : List IPFixField),
      (NewIPFixTemplate id fs).FieldCount = fs.length % 65536 :=
    fun _ _ => rfl
  have h2 : bigFieldList.length = 65536 := by
    unfold bigFieldList
    simp only [List.length_replicate]
  rw [h1, h2] at h
  omega

/-- C7 (amended): the stored field count of a constructed template is
`(length of the field list) % 2^16` — hence equals the length
whenever fewer than 2^16 fields are given, and it is always derived
from the list, never supplied independently — and the template's byte
length is `4 + Σ field byte lengths`. -/
theorem claim_C7 (id : Nat) (fs : List IPFixField) :
    (NewIPFixTemplate id fs).FieldCount = fs.length % 65536
    ∧ (fs.length < 65536 →
        (NewIPFixTemplate id fs).FieldCount = fs.length)
    ∧ (NewIPFixTemplate id fs).Len = 4 + (fs.map IPFixField.Len).sum := by
  refine ⟨rfl, fun h => ?_, ?_⟩
  · exact Nat.mod_eq_of_lt h
  · rw [IPFixTemplate.Len_eq]
    rfl

/-- C7 witness: a template from two fields (one enterprise, one not)
has field count 2 and byte length 16. -/
theorem claim_C7_witness :
    (NewIPFixTemplate 7 [sampleField, plainField]).FieldCount = 2
    ∧ (NewIPFixTemplate 7 [sampleField, plainField]).Len = 16 :=
  ⟨((claim_C7 7 [sampleField, plainField]).2.1 (by decide)).trans (by decide),
   ((claim_C7 7 [sampleField, plainField]).2.2).trans (by decide)⟩

/-- C8: calling `Len` a second time on the set or packet it just
refreshed returns the same value and leaves the same stored state. -/
theorem claim_C8 (s : IPFixSet) (p : IPFix) :
    ((s.Len).snd.Len).fst = (s.Len).fst
    ∧ ((s.Len).snd.Len).snd = (s.Len).snd
    ∧ ((p.Len).snd.Len).fst = (p.Len).fst
    ∧ ((p.Len).snd.Len).snd = (p.Len).snd :=
  ⟨congrArg Prod.fst (setLen_idem s),
   congrArg Prod.snd (setLen_idem s),
   congrArg Prod.fst (packetLen_idem p),
   congrArg Prod.snd (packetLen_idem p)⟩

/-- C9: the decode entry point fails with the "not implemented" error
on every input, producing no parsed structure. -/
theorem claim_C9 (data : List Nat) (pb : PacketBuilder) :
    decodeIPFix data pb = Except.error "Not Implemented yet" := rfl

/-- C10: every derived 16-bit quantity is stored reduced modulo 2^16
while the computed length is returned unreduced — set and packet
`Len` store `value % 2^16` and return the full value, and the V9
entry count is written as its low 16 bits — and whenever the true
total exceeds 65535 the stored value differs from the returned
one. -/
theorem claim_C10 :
    (∀ s : IPFixSet,
      (s.Len).snd.Length = (s.Len).fst % 65536
      ∧ (s.Len).fst = 4 + (s.SetEntries.map IPFixSetEntry.Len).sum)
    ∧ (∀ p : IPFix, (p.Len).snd.Length = (p.Len).fst % 65536)
    ∧ (∀ p : IPFix, p.Ver = 9 →
        ((p.SerializeTo).drop 2).take 2 = be16 (ipfixSetCount p.Sets))
    ∧ (∀ s : IPFixSet, 65535 < (s.Len).fst →
        (s.Len).snd.Length ≠ (s.Len).fst)
    ∧ (∀ p : IPFix, 65535 < (p.Len).fst →
        (p.Len).snd.Length ≠ (p.Len).fst) := by
  refine ⟨fun s => ⟨setLen_snd_Length s, setLen_fst s⟩,
    fun p => packetLen_snd_Length p,
    fun p hv => IPFix.serializeTo_v9_count_bytes p hv,
    fun s hgt heq => ?_, fun p hgt heq => ?_⟩
  · rw [setLen_snd_Length] at heq
    omega
  · rw [packetLen_snd_Length] at heq
    omega

/-- The entries of `bigSet`, spelled out. -/
theorem bigSet_entries : bigSet.SetEntries
    = [IPFixSetEntry.record { Data := List.replicate 65532 0 }] := rfl

/-- The entry lengths of `bigSet` sum to 65532. -/
theorem bigSet_entry_sum :
    (bigSet.SetEntries.map IPFixSetEntry.Len).sum = 65532 := by
  rw [bigSet_entries]
  simp only [List.map_cons, List.map_nil, List.sum_cons, List.sum_nil,
    IPFixSetEntry.Len, IPFixRecord.Len, List.length_replicate]
  omega

/-- C10 witness: `bigSet` (true length 65536) stores a different
length, and Scenario D's V9 output carries the entry count at bytes
`[2:4]`. -/
theorem claim_C10_witness :
    ((bigSet.Len).snd.Length ≠ (bigSet.Len).fst)
    ∧ ((IPFix.SerializeTo scenarioD).drop 2).take 2
        = be16 (ipfixSetCount scenarioD.Sets) := by
  refine ⟨claim_C10.2.2.2.1 bigSet ?_, claim_C10.2.2.1 scenarioD rfl⟩
  rw [setLen_fst, bigSet_entry_sum]
  omega
